import Mathlib

/-!
Verification development for the `llm_api_chat` repository.

The backend keeps all state in JavaScript `Map`s inside a storage facade
(`MemStorage` in `src/server/routes.ts`) and a JSON-file session store
(`JsonFileSessionStore` in `src/server/storage.ts`).  This file embeds those
data structures and operations shallowly:

* a JS `Map` is modelled as an ordered association list (`JsMap`), since JS
  maps iterate in insertion order, `set` updates in place, and `delete`
  removes the entry;
* JS `Array.prototype.sort` (required to be stable, with the comparators used
  here being total preorders) is modelled as a stable insertion sort;
* timestamps are epoch milliseconds (`Int`); calendar dates are the
  `(getFullYear, getMonth()+1, getDate)` triple of a `Date`;
* file persistence is modelled as pure serialization of the in-memory state.
-/

namespace JsMap

/-- JS `Map.prototype.get`: first (and, for maps built by `set`, only) binding. -/
def lookup {K V : Type} [DecidableEq K] : List (K × V) → K → Option V
  | [], _ => none
  | (k', v) :: rest, k => if k' = k then some v else lookup rest k

/-- JS `Map.prototype.set`: replaces the binding in place if present, else appends. -/
def set {K V : Type} [DecidableEq K] : List (K × V) → K → V → List (K × V)
  | [], k, v => [(k, v)]
  | (k', v') :: rest, k, v =>
    if k' = k then (k, v) :: rest else (k', v') :: set rest k v

/-- JS `Map.prototype.delete` (the updated map; deletion succeeded iff the key was present). -/
def erase {K V : Type} [DecidableEq K] : List (K × V) → K → List (K × V)
  | [], _ => []
  | (k', v') :: rest, k =>
    if k' = k then rest else (k', v') :: erase rest k

/-- JS `Map.prototype.keys()` in iteration order. -/
def keys {K V : Type} (m : List (K × V)) : List K := m.map Prod.fst

/-- JS `Map.prototype.values()` in iteration order. -/
def values {K V : Type} (m : List (K × V)) : List V := m.map Prod.snd

/-- JS `new Map(entries)`: sequential `set` of each entry into an empty map. -/
def ofEntries {K V : Type} [DecidableEq K] (l : List (K × V)) : List (K × V) :=
  l.foldl (fun m kv => set m kv.1 kv.2) []

theorem lookup_set_self {K V : Type} [DecidableEq K] (m : List (K × V)) (k : K) (v : V) :
    lookup (set m k v) k = some v := by
  induction m with
  | nil => simp [set, lookup]
  | cons hd tl ih =>
    obtain ⟨k', v'⟩ := hd
    by_cases h : k' = k
    · simp [set, lookup, h]
    · simp [set, lookup, h, ih]

theorem lookup_set_ne {K V : Type} [DecidableEq K] (m : List (K × V)) (k k' : K) (v : V)
    (h : k ≠ k') : lookup (set m k v) k' = lookup m k' := by
  induction m with
  | nil => simp [set, lookup, h]
  | cons hd tl ih =>
    obtain ⟨k₀, v₀⟩ := hd
    by_cases h₀ : k₀ = k
    · subst h₀
      simp [set, lookup, h]
    · simp [set, lookup, h₀, ih]

theorem lookup_isSome_iff_mem_keys {K V : Type} [DecidableEq K] (m : List (K × V)) (k : K) :
    (lookup m k).isSome ↔ k ∈ keys m := by
  induction m with
  | nil => simp [lookup, keys]
  | cons hd tl ih =>
    obtain ⟨k', v'⟩ := hd
    by_cases h : k' = k
    · simp [lookup, keys, h]
    · simp [lookup, keys, h, ih, Ne.symm h]

theorem lookup_eq_none_iff_not_mem_keys {K V : Type} [DecidableEq K]
    (m : List (K × V)) (k : K) : lookup m k = none ↔ k ∉ keys m := by
  rw [← lookup_isSome_iff_mem_keys]
  cases h : lookup m k <;> simp [h]

theorem keys_set_of_mem {K V : Type} [DecidableEq K] (m : List (K × V)) (k : K) (v : V)
    (h : k ∈ keys m) : keys (set m k v) = keys m := by
  induction m with
  | nil => simp [keys] at h
  | cons hd tl ih =>
    obtain ⟨k', v'⟩ := hd
    by_cases hk : k' = k
    · simp [set, keys, hk]
    · have h2 : k ∈ keys tl := by
        simpa [keys, hk, Ne.symm hk] using h
      have h3 := ih h2
      simp only [set, hk, if_false, keys, List.map_cons] at h3 ⊢
      rw [h3]

theorem set_of_not_mem {K V : Type} [DecidableEq K] (m : List (K × V)) (k : K) (v : V)
    (h : k ∉ keys m) : set m k v = m ++ [(k, v)] := by
  induction m with
  | nil => simp [set]
  | cons hd tl ih =>
    obtain ⟨k', v'⟩ := hd
    have hk : k' ≠ k := by
      intro hkk
      exact h (by simp [keys, hkk])
    have htl : k ∉ keys tl := by
      intro hm
      apply h
      simp only [keys, List.map_cons, List.mem_cons]
      exact Or.inr (by simpa [keys] using hm)
    simp [set, hk, ih htl]

theorem keys_set_nodup {K V : Type} [DecidableEq K] (m : List (K × V)) (k : K) (v : V)
    (h : (keys m).Nodup) : (keys (set m k v)).Nodup := by
  by_cases hm : k ∈ keys m
  · rw [keys_set_of_mem m k v hm]
    exact h
  · rw [set_of_not_mem m k v hm]
    simp only [keys, List.map_append, List.map_cons, List.map_nil]
    rw [List.nodup_append]
    refine ⟨h, List.nodup_singleton k, ?_⟩
    simp [keys] at hm
    simpa [List.disjoint_left, keys] using hm

theorem keys_erase_sublist {K V : Type} [DecidableEq K] (m : List (K × V)) (k : K) :
    (keys (erase m k)).Sublist (keys m) := by
  induction m with
  | nil => simp [erase, keys]
  | cons hd tl ih =>
    obtain ⟨k', v'⟩ := hd
    by_cases h : k' = k
    · simp only [erase, h, if_true]
      exact (List.sublist_cons_self k (keys tl))
    · simp only [erase, h, if_false, keys, List.map_cons]
      exact List.Sublist.cons₂ k' ih

theorem keys_erase_nodup {K V : Type} [DecidableEq K] (m : List (K × V)) (k : K)
    (h : (keys m).Nodup) : (keys (erase m k)).Nodup :=
  (keys_erase_sublist m k).nodup h

theorem mem_of_mem_erase {K V : Type} [DecidableEq K] {m : List (K × V)} {k : K}
    {kv : K × V} (h : kv ∈ erase m k) : kv ∈ m := by
  induction m with
  | nil => simp [erase] at h
  | cons hd tl ih =>
    obtain ⟨k', v'⟩ := hd
    by_cases hk : k' = k
    · simp only [erase, hk, if_true] at h
      exact List.mem_cons_of_mem _ h
    · simp only [erase, hk, if_false, List.mem_cons] at h
      rcases h with h | h
      · exact h ▸ List.mem_cons_self _ _
      · exact List.mem_cons_of_mem _ (ih h)

theorem lookup_erase_self {K V : Type} [DecidableEq K] (m : List (K × V)) (k : K)
    (h : (keys m).Nodup) : lookup (erase m k) k = none := by
  induction m with
  | nil => simp [erase, lookup]
  | cons hd tl ih =>
    obtain ⟨k', v'⟩ := hd
    simp only [keys, List.map_cons, List.nodup_cons] at h
    by_cases hk : k' = k
    · subst hk
      simp only [erase, if_true]
      rw [lookup_eq_none_iff_not_mem_keys]
      exact h.1
    · simp [erase, lookup, hk, ih h.2]

theorem ofEntries_aux {K V : Type} [DecidableEq K] (l acc : List (K × V))
    (h : (keys (acc ++ l)).Nodup) :
    l.foldl (fun m kv => set m kv.1 kv.2) acc = acc ++ l := by
  induction l generalizing acc with
  | nil => simp
  | cons hd tl ih =>
    obtain ⟨k, v⟩ := hd
    have hk : k ∉ keys acc := by
      intro hmem
      have hnd := h
      simp only [keys, List.map_append, List.map_cons, List.nodup_append] at hnd
      exact hnd.2.2 (by simpa [keys] using hmem) (List.mem_cons_self _ _)
    have hstep : set acc k v = acc ++ [(k, v)] := set_of_not_mem acc k v hk
    have hre : acc ++ (k, v) :: tl = (acc ++ [(k, v)]) ++ tl := by simp
    rw [List.foldl_cons]
    simp only at hstep
    rw [hstep, ih (acc ++ [(k, v)]) (by rw [← hre]; exact h), hre]

theorem ofEntries_eq_self {K V : Type} [DecidableEq K] (l : List (K × V))
    (h : (keys l).Nodup) : ofEntries l = l := by
  simpa using ofEntries_aux l [] (by simpa using h)

end JsMap

/-!
Stable sort.  JS `Array.prototype.sort` is specified to be stable; with a
comparator that is a consistent total preorder its output is uniquely
determined, and a stable insertion sort computes it.
-/

/-- Inserts an element into a sorted list, after any earlier element it does
not strictly precede (stable placement). -/
def insSorted {α : Type} (le : α → α → Bool) (x : α) : List α → List α
  | [] => [x]
  | y :: ys => if le x y then x :: y :: ys else y :: insSorted le x ys

/-- Stable insertion sort modelling JS `Array.prototype.sort` with comparator
induced by `le`. -/
def stableSort {α : Type} (le : α → α → Bool) : List α → List α
  | [] => []
  | x :: xs => insSorted le x (stableSort le xs)

theorem insSorted_map {α : Type} (le : α → α → Bool) (g : α → α)
    (hg : ∀ a b, le (g a) (g b) = le a b) (x : α) (l : List α) :
    insSorted le (g x) (l.map g) = (insSorted le x l).map g := by
  induction l with
  | nil => simp [insSorted]
  | cons y ys ih =>
    by_cases h : le x y
    · simp [insSorted, hg, h]
    · simp [insSorted, hg, h, ih]

theorem stableSort_map {α : Type} (le : α → α → Bool) (g : α → α)
    (hg : ∀ a b, le (g a) (g b) = le a b) (l : List α) :
    stableSort le (l.map g) = (stableSort le l).map g := by
  induction l with
  | nil => simp [stableSort]
  | cons x xs ih =>
    simp only [List.map_cons, stableSort, ih]
    exact insSorted_map le g hg x (stableSort le xs)

/-!
API configurations (`src/server/routes.ts`, `MemStorage.configStores` and the
configuration methods).  Two independent namespaces (`default` and `google`),
each a JS map of configurations plus an active-id pointer and an id counter.
-/

/-- Shape of `ApiConfiguration` (shared schema plus the `useGoogle` flag the
storage layer attaches). -/
structure ApiConfiguration where
  id : Nat
  name : String
  endpoint : String
  token : String
  model : String
  useGoogle : Bool
deriving DecidableEq, Repr

/-- Shape of `InsertApiConfiguration` (the insert schema omits `id`). -/
structure InsertApiConfiguration where
  name : String
  endpoint : String
  token : String
  model : String
deriving DecidableEq, Repr

/-- One namespace of `MemStorage.configStores`. -/
structure ConfigStore where
  configs : List (Nat × ApiConfiguration)
  activeId : Option Nat
  nextId : Nat
deriving DecidableEq, Repr

/-- The pair of namespaces, `configStores.default` and `configStores.google`. -/
structure ConfigState where
  storeDefault : ConfigStore
  storeGoogle : ConfigStore
deriving DecidableEq, Repr

/-- Mirrors `MemStorage.getStore(useGoogle)`. -/
def getStore (s : ConfigState) (useGoogle : Bool) : ConfigStore :=
  if useGoogle then s.storeGoogle else s.storeDefault

/-- Writes back the namespace selected by `useGoogle`. -/
def setStore (s : ConfigState) (useGoogle : Bool) (st : ConfigStore) : ConfigState :=
  if useGoogle then { s with storeGoogle := st } else { s with storeDefault := st }

/-- Fresh `MemStorage` configuration state before any file is loaded. -/
def initialConfigState : ConfigState :=
  { storeDefault := { configs := [], activeId := none, nextId := 1 }
  , storeGoogle := { configs := [], activeId := none, nextId := 1 } }

/-- Mirrors `MemStorage.saveApiConfiguration`: uses the given id or allocates
`store.nextId++`, stores the record, and makes it active. -/
def saveApiConfiguration (s : ConfigState) (insert : InsertApiConfiguration)
    (insertId : Option Nat) (useGoogle : Bool) : ApiConfiguration × ConfigState :=
  let store := getStore s useGoogle
  let id := insertId.getD store.nextId
  let config : ApiConfiguration :=
    { id := id, name := insert.name, endpoint := insert.endpoint
    , token := insert.token, model := insert.model, useGoogle := useGoogle }
  let store' : ConfigStore :=
    { configs := JsMap.set store.configs id config
    , activeId := some id
    , nextId := if insertId.isSome then store.nextId else store.nextId + 1 }
  (config, setStore s useGoogle store')

/-- Mirrors `MemStorage.getApiConfiguration`: by id when given, else via the
namespace's active pointer. -/
def getApiConfiguration (s : ConfigState) (id : Option Nat) (useGoogle : Bool) :
    Option ApiConfiguration :=
  let store := getStore s useGoogle
  match id with
  | some i => JsMap.lookup store.configs i
  | none =>
    match store.activeId with
    | some a => JsMap.lookup store.configs a
    | none => none

/-- Mirrors `MemStorage.deleteApiConfiguration`: deletes, and when the deleted
id was active, reassigns the pointer to the first remaining key (map-iteration
order) or clears it. -/
def deleteApiConfiguration (s : ConfigState) (id : Nat) (useGoogle : Bool) :
    Bool × ConfigState :=
  let store := getStore s useGoogle
  if (JsMap.lookup store.configs id).isSome then
    let configs' := JsMap.erase store.configs id
    let activeId' :=
      if store.activeId = some id then (JsMap.keys configs').head? else store.activeId
    (true, setStore s useGoogle { store with configs := configs', activeId := activeId' })
  else
    (false, s)

/-- Mirrors `MemStorage.setActiveApiConfiguration`: switches the pointer only
when the id exists in the namespace. -/
def setActiveApiConfiguration (s : ConfigState) (id : Nat) (useGoogle : Bool) :
    Option ApiConfiguration × ConfigState :=
  match JsMap.lookup (getStore s useGoogle).configs id with
  | some cfg => (some cfg, setStore s useGoogle { getStore s useGoogle with activeId := some id })
  | none => (none, s)

/-- Contents of one configuration JSON file (`{activeId, configs}`). -/
structure ConfigFilePayload where
  activeId : Option Nat
  configs : List ApiConfiguration
deriving DecidableEq, Repr

/-- Mirrors `MemStorage.persistConfigs`: serializes the namespace wholesale. -/
def persistConfigs (store : ConfigStore) : ConfigFilePayload :=
  { activeId := store.activeId, configs := JsMap.values store.configs }

/-- Mirrors `MemStorage.loadConfigs` on an existing, parseable file: stamps the
namespace flag onto each record, keys the map by record id, reseeds the id
counter from the max id, and adopts the file's active id unchecked. -/
def loadConfigs (payload : ConfigFilePayload) (useGoogle : Bool) : ConfigStore :=
  let configs := payload.configs.map (fun c => { c with useGoogle := useGoogle })
  { configs := JsMap.ofEntries (configs.map (fun c => (c.id, c)))
  , activeId := payload.activeId
  , nextId := (configs.foldl (fun m c => max m c.id) 0) + 1 }

/-- A fresh `MemStorage` constructor reloading the files the previous instance
persisted (for both namespaces). -/
def restartConfigState (s : ConfigState) : ConfigState :=
  { storeDefault := loadConfigs (persistConfigs s.storeDefault) false
  , storeGoogle := loadConfigs (persistConfigs s.storeGoogle) true }

/-- States of the configuration facade reachable from startup through its
operations, including a restart that reloads the persisted files. -/
inductive ReachConfig : ConfigState → Prop
  | init : ReachConfig initialConfigState
  | save (s : ConfigState) (insert : InsertApiConfiguration) (insertId : Option Nat)
      (useGoogle : Bool) : ReachConfig s →
      ReachConfig (saveApiConfiguration s insert insertId useGoogle).2
  | del (s : ConfigState) (id : Nat) (useGoogle : Bool) : ReachConfig s →
      ReachConfig (deleteApiConfiguration s id useGoogle).2
  | setActive (s : ConfigState) (id : Nat) (useGoogle : Bool) : ReachConfig s →
      ReachConfig (setActiveApiConfiguration s id useGoogle).2
  | restart (s : ConfigState) : ReachConfig s → ReachConfig (restartConfigState s)

/-- Well-formedness of one namespace: map keys are unique, each record's `id`
field matches its key, and the active pointer (if set) names a present key. -/
def StoreWF (st : ConfigStore) : Prop :=
  (JsMap.keys st.configs).Nodup ∧
  (∀ kc ∈ st.configs, (kc : Nat × ApiConfiguration).2.id = kc.1) ∧
  (∀ i, st.activeId = some i → i ∈ JsMap.keys st.configs)

theorem getStore_setStore_same (s : ConfigState) (g : Bool) (st : ConfigStore) :
    getStore (setStore s g st) g = st := by
  cases g <;> simp [getStore, setStore]

theorem getStore_setStore_other (s : ConfigState) (g g' : Bool) (st : ConfigStore)
    (h : g ≠ g') : getStore (setStore s g st) g' = getStore s g' := by
  cases g <;> cases g' <;> simp_all [getStore, setStore]


namespace JsMap

theorem mem_set {K V : Type} [DecidableEq K] {m : List (K × V)} {k : K} {v : V}
    {kv : K × V} (h : kv ∈ set m k v) : kv = (k, v) ∨ kv ∈ m := by
  induction m with
  | nil => simpa [set] using h
  | cons hd tl ih =>
    obtain ⟨k', v'⟩ := hd
    by_cases hk : k' = k
    · simp only [set, hk, if_true, List.mem_cons] at h
      rcases h with h | h
      · exact Or.inl h
      · exact Or.inr (List.mem_cons_of_mem _ h)
    · simp only [set, hk, if_false, List.mem_cons] at h
      rcases h with h | h
      · exact Or.inr (h ▸ List.mem_cons_self _ _)
      · rcases ih h with h2 | h2
        · exact Or.inl h2
        · exact Or.inr (List.mem_cons_of_mem _ h2)

theorem mem_keys_set_self {K V : Type} [DecidableEq K] (m : List (K × V)) (k : K) (v : V) :
    k ∈ keys (set m k v) := by
  rw [← lookup_isSome_iff_mem_keys, lookup_set_self]
  rfl

theorem mem_keys_erase_of_ne {K V : Type} [DecidableEq K] {m : List (K × V)} {k i : K}
    (hi : i ∈ keys m) (hne : i ≠ k) : i ∈ keys (erase m k) := by
  induction m with
  | nil => simp [keys] at hi
  | cons hd tl ih =>
    obtain ⟨k', v'⟩ := hd
    by_cases hk : k' = k
    · subst hk
      simp only [erase, if_true]
      simp only [keys, List.map_cons, List.mem_cons] at hi
      rcases hi with hi | hi
      · exact absurd hi hne
      · exact hi
    · simp only [keys, List.map_cons, List.mem_cons] at hi
      simp only [erase, hk, if_false, keys, List.map_cons, List.mem_cons]
      rcases hi with hi | hi
      · exact Or.inl hi
      · exact Or.inr (ih hi)

theorem head_mem_lookup {K V : Type} [DecidableEq K] (k : K) (v : V) (rest : List (K × V)) :
    lookup ((k, v) :: rest) k = some v := by
  simp [lookup]

end JsMap

/-- Well-formedness of the whole configuration facade state. -/
def ConfigWF (s : ConfigState) : Prop :=
  StoreWF s.storeDefault ∧ StoreWF s.storeGoogle

theorem configWF_getStore {s : ConfigState} (h : ConfigWF s) (g : Bool) :
    StoreWF (getStore s g) := by
  cases g
  · simpa [getStore] using h.1
  · simpa [getStore] using h.2

theorem configWF_setStore {s : ConfigState} {st : ConfigStore} (h : ConfigWF s)
    (hst : StoreWF st) (g : Bool) : ConfigWF (setStore s g st) := by
  cases g
  · exact ⟨by simpa [setStore] using hst, by simpa [setStore] using h.2⟩
  · exact ⟨by simpa [setStore] using h.1, by simpa [setStore] using hst⟩

/-- Storing a record whose id field equals its key and pointing the active id
at it preserves store well-formedness. -/
theorem storeWF_set_active (st : ConfigStore) (id : Nat) (cfg : ApiConfiguration)
    (hcfg : cfg.id = id) (n : Nat) (h : StoreWF st) :
    StoreWF { configs := JsMap.set st.configs id cfg, activeId := some id, nextId := n } := by
  obtain ⟨hnd, hid, _⟩ := h
  refine ⟨JsMap.keys_set_nodup _ _ _ hnd, ?_, ?_⟩
  · intro kc hkc
    rcases JsMap.mem_set hkc with h2 | h2
    · simp [h2, hcfg]
    · exact hid kc h2
  · intro i hi
    simp only [Option.some_inj] at hi
    subst hi
    exact JsMap.mem_keys_set_self st.configs id cfg

theorem configWF_save (s : ConfigState) (insert : InsertApiConfiguration)
    (insertId : Option Nat) (g : Bool) (h : ConfigWF s) :
    ConfigWF (saveApiConfiguration s insert insertId g).2 := by
  unfold saveApiConfiguration
  simp only
  apply configWF_setStore h _ g
  exact storeWF_set_active (getStore s g) (insertId.getD (getStore s g).nextId)
    { id := insertId.getD (getStore s g).nextId, name := insert.name
    , endpoint := insert.endpoint, token := insert.token, model := insert.model
    , useGoogle := g } rfl
    (if insertId.isSome then (getStore s g).nextId else (getStore s g).nextId + 1)
    (configWF_getStore h g)

theorem configWF_delete (s : ConfigState) (id : Nat) (g : Bool) (h : ConfigWF s) :
    ConfigWF (deleteApiConfiguration s id g).2 := by
  unfold deleteApiConfiguration
  by_cases hl : (JsMap.lookup (getStore s g).configs id).isSome
  · simp only [hl, if_true]
    apply configWF_setStore h _ g
    obtain ⟨hnd, hid, hact⟩ := configWF_getStore h g
    refine ⟨JsMap.keys_erase_nodup _ _ hnd, ?_, ?_⟩
    · intro kc hkc
      exact hid kc (JsMap.mem_of_mem_erase hkc)
    · intro i hi
      by_cases hcase : (getStore s g).activeId = some id
      · simp only [hcase, if_true] at hi
        cases hh : (JsMap.keys (JsMap.erase (getStore s g).configs id)).head? with
        | none => simp [hh] at hi
        | some k0 =>
          rw [hh] at hi
          simp only [Option.some_inj] at hi
          subst hi
          exact List.mem_of_mem_head? hh
      · simp only [hcase, if_false] at hi
        have him := hact i hi
        have hne : i ≠ id := by
          intro hii
          exact hcase (by rw [← hii]; exact hi)
        exact JsMap.mem_keys_erase_of_ne him hne
  · simp only [hl, if_false]
    exact h

theorem configWF_setActive (s : ConfigState) (id : Nat) (g : Bool) (h : ConfigWF s) :
    ConfigWF (setActiveApiConfiguration s id g).2 := by
  unfold setActiveApiConfiguration
  cases hl : JsMap.lookup (getStore s g).configs id with
  | none => exact h
  | some cfg =>
    simp only
    apply configWF_setStore h _ g
    obtain ⟨hnd, hid, _⟩ := configWF_getStore h g
    refine ⟨hnd, hid, ?_⟩
    intro i hi
    simp only [Option.some_inj] at hi
    subst hi
    rw [← JsMap.lookup_isSome_iff_mem_keys, hl]
    rfl

theorem storeWF_reload (st : ConfigStore) (g : Bool) (h : StoreWF st) :
    StoreWF (loadConfigs (persistConfigs st) g) := by
  obtain ⟨hnd, hid, hact⟩ := h
  have hkeys : JsMap.keys
      (((persistConfigs st).configs.map (fun c => { c with useGoogle := g })).map
        (fun c => (c.id, c))) = JsMap.keys st.configs := by
    simp only [persistConfigs, JsMap.keys, JsMap.values, List.map_map]
    apply List.map_congr_left
    intro kc hkc
    simpa using hid kc hkc
  have hself : JsMap.ofEntries
      (((persistConfigs st).configs.map (fun c => { c with useGoogle := g })).map
        (fun c => (c.id, c))) =
      ((persistConfigs st).configs.map (fun c => { c with useGoogle := g })).map
        (fun c => (c.id, c)) := by
    apply JsMap.ofEntries_eq_self
    rw [hkeys]
    exact hnd
  unfold loadConfigs
  refine ⟨?_, ?_, ?_⟩
  · simp only [hself, hkeys]
    exact hnd
  · intro kc hkc
    simp only [hself] at hkc
    simp only [List.mem_map] at hkc
    obtain ⟨c, _, hc⟩ := hkc
    simp [← hc]
  · intro i hi
    simp only [hself, hkeys]
    simp only [persistConfigs] at hi
    exact hact i hi

theorem configWF_restart (s : ConfigState) (h : ConfigWF s) :
    ConfigWF (restartConfigState s) :=
  ⟨storeWF_reload s.storeDefault false h.1, storeWF_reload s.storeGoogle true h.2⟩

/-- Every reachable configuration state is well-formed; in particular every
namespace's active pointer names an existing entry or is cleared. -/
theorem reachConfig_wf (s : ConfigState) (h : ReachConfig s) : ConfigWF s := by
  induction h with
  | init =>
    exact ⟨⟨by simp [initialConfigState, JsMap.keys], by simp [initialConfigState],
      by simp [initialConfigState]⟩,
      ⟨by simp [initialConfigState, JsMap.keys], by simp [initialConfigState],
      by simp [initialConfigState]⟩⟩
  | save s insert insertId g _ ih => exact configWF_save s insert insertId g ih
  | del s id g _ ih => exact configWF_delete s id g ih
  | setActive s id g _ ih => exact configWF_setActive s id g ih
  | restart s _ ih => exact configWF_restart s ih

/-- C1: for every namespace and every configuration input without an id,
immediately after `saveApiConfiguration` the namespace's `getApiConfiguration`
with no id returns exactly the saved record, the active pointer equals that
record's newly assigned id (taken from the namespace's id counter), and hence
it is the unique configuration the active pointer designates. -/
theorem save_without_id_becomes_active (s : ConfigState)
    (insert : InsertApiConfiguration) (g : Bool) :
    getApiConfiguration (saveApiConfiguration s insert none g).2 none g
      = some (saveApiConfiguration s insert none g).1 ∧
    (getStore (saveApiConfiguration s insert none g).2 g).activeId
      = some (saveApiConfiguration s insert none g).1.id ∧
    (saveApiConfiguration s insert none g).1.id = (getStore s g).nextId := by
  simp only [saveApiConfiguration, getApiConfiguration, getStore_setStore_same,
    Option.getD_none, Option.isSome_none]
  exact ⟨JsMap.lookup_set_self _ _ _, by trivial, by trivial⟩

/-- C2: deleting the namespace's currently active configuration returns `true`;
if entries remain, the active pointer moves to the first surviving entry in
map-iteration order and `getApiConfiguration` with no id returns that record,
and if none remain the pointer is cleared and the lookup returns `none`. -/
theorem delete_active_reassigns_pointer (s : ConfigState) (id : Nat) (g : Bool)
    (hact : (getStore s g).activeId = some id)
    (hmem : (JsMap.lookup (getStore s g).configs id).isSome) :
    (deleteApiConfiguration s id g).1 = true ∧
    (match JsMap.erase (getStore s g).configs id with
     | [] =>
       (getStore (deleteApiConfiguration s id g).2 g).activeId = none ∧
       getApiConfiguration (deleteApiConfiguration s id g).2 none g = none
     | (k, c) :: _ =>
       (getStore (deleteApiConfiguration s id g).2 g).activeId = some k ∧
       getApiConfiguration (deleteApiConfiguration s id g).2 none g = some c) := by
  have hdel : deleteApiConfiguration s id g =
      (true, setStore s g { getStore s g with
        configs := JsMap.erase (getStore s g).configs id
        , activeId := (JsMap.keys (JsMap.erase (getStore s g).configs id)).head? }) := by
    unfold deleteApiConfiguration
    rw [if_pos hmem]
    simp [hact]
  refine ⟨by rw [hdel], ?_⟩
  cases herase : JsMap.erase (getStore s g).configs id with
  | nil =>
    simp only [herase, hdel, getStore_setStore_same, getApiConfiguration, JsMap.keys,
      List.map_nil, List.head?_nil]
    exact ⟨by trivial, by trivial⟩
  | cons hd tl =>
    obtain ⟨k, c⟩ := hd
    simp only [herase, hdel, getStore_setStore_same, getApiConfiguration, JsMap.keys,
      List.map_cons, List.head?_cons]
    exact ⟨by trivial, by simp [JsMap.lookup]⟩

/-- Sample configurations used to instantiate the hypotheses of the claim
theorems at concrete inputs. -/
def cfgOne : ApiConfiguration :=
  { id := 1, name := "a", endpoint := "e1", token := "t1", model := "m1", useGoogle := false }

def cfgTwo : ApiConfiguration :=
  { id := 2, name := "b", endpoint := "e2", token := "t2", model := "m2", useGoogle := false }

/-- A configuration facade state with two generic-namespace entries, the first
one active. -/
def twoConfigState : ConfigState :=
  { storeDefault := { configs := [(1, cfgOne), (2, cfgTwo)], activeId := some 1, nextId := 3 }
  , storeGoogle := { configs := [], activeId := none, nextId := 1 } }

theorem delete_active_reassigns_pointer_witness :
    (deleteApiConfiguration twoConfigState 1 false).1 = true ∧
    (match JsMap.erase (getStore twoConfigState false).configs 1 with
     | [] =>
       (getStore (deleteApiConfiguration twoConfigState 1 false).2 false).activeId = none ∧
       getApiConfiguration (deleteApiConfiguration twoConfigState 1 false).2 none false = none
     | (k, c) :: _ =>
       (getStore (deleteApiConfiguration twoConfigState 1 false).2 false).activeId = some k ∧
       getApiConfiguration (deleteApiConfiguration twoConfigState 1 false).2 none false = some c) :=
  delete_active_reassigns_pointer twoConfigState 1 false (by decide) (by decide)

/-- Sample insert used for reachability witnesses. -/
def sampleInsert : InsertApiConfiguration :=
  { name := "n", endpoint := "e", token := "t", model := "m" }

/-- The state reached from startup by one id-less save in the generic namespace. -/
def oneSaveState : ConfigState :=
  (saveApiConfiguration initialConfigState sampleInsert none false).2

/-- C3: in every reachable facade state (startup, saves, deletes, pointer
switches, and restarts that reload the persisted configuration files), an
active pointer always names a present configuration; `setActiveApiConfiguration`
returns `none` and leaves the state unchanged when the id is absent, and
switches the pointer (returning the record) when it is present. -/
theorem active_pointer_always_valid :
    (∀ s, ReachConfig s → ∀ g i, (getStore s g).activeId = some i →
      (JsMap.lookup (getStore s g).configs i).isSome) ∧
    (∀ s i g, JsMap.lookup (getStore s g).configs i = none →
      setActiveApiConfiguration s i g = (none, s)) ∧
    (∀ s i g cfg, JsMap.lookup (getStore s g).configs i = some cfg →
      setActiveApiConfiguration s i g =
        (some cfg, setStore s g { getStore s g with activeId := some i })) := by
  refine ⟨?_, ?_, ?_⟩
  · intro s hs g i hi
    have h := configWF_getStore (reachConfig_wf s hs) g
    rw [JsMap.lookup_isSome_iff_mem_keys]
    exact h.2.2 i hi
  · intro s i g hl
    unfold setActiveApiConfiguration
    rw [hl]
  · intro s i g cfg hl
    unfold setActiveApiConfiguration
    rw [hl]

theorem active_pointer_always_valid_witness :
    (JsMap.lookup (getStore oneSaveState false).configs 1).isSome ∧
    setActiveApiConfiguration initialConfigState 5 false = (none, initialConfigState) ∧
    setActiveApiConfiguration twoConfigState 2 false =
      (some cfgTwo, setStore twoConfigState false
        { getStore twoConfigState false with activeId := some 2 }) :=
  ⟨active_pointer_always_valid.1 oneSaveState
      (ReachConfig.save initialConfigState sampleInsert none false ReachConfig.init)
      false 1 (by decide),
   active_pointer_always_valid.2.1 initialConfigState 5 false (by decide),
   active_pointer_always_valid.2.2 twoConfigState 2 false cfgTwo (by decide)⟩

namespace JsMap

theorem values_map_eq_keys {K V : Type} (m : List (K × V)) (f : V → K)
    (h : ∀ kv ∈ m, f (kv : K × V).2 = kv.1) : (values m).map f = keys m := by
  simp only [values, keys, List.map_map]
  apply List.map_congr_left
  intro kv hkv
  exact h kv hkv

theorem set_ne_nil {K V : Type} [DecidableEq K] (m : List (K × V)) (k : K) (v : V) :
    set m k v ≠ [] := by
  cases m with
  | nil => simp [set]
  | cons hd tl =>
    obtain ⟨k', v'⟩ := hd
    by_cases h : k' = k <;> simp [set, h]

end JsMap

/-!
System prompts (`src/server/routes.ts`: `loadPrompts`, `persistPrompts`,
`createSystemPrompt`, `getAllSystemPrompts`, `initializeDefaultPrompts`, and
the `MemStorage` constructor).  `createdAt` is epoch milliseconds; the JSON
round trip (ISO string out, `new Date(...)` back, `null` preserved) is the
identity on that value.
-/

/-- Shape of `SystemPrompt` (shared schema; `createdAt` nullable). -/
structure SystemPrompt where
  id : Nat
  name : String
  content : String
  createdAt : Option Int
deriving DecidableEq, Repr

/-- The prompt-related slice of `MemStorage`. -/
structure PromptState where
  systemPrompts : List (Nat × SystemPrompt)
  currentPromptId : Nat
deriving DecidableEq, Repr

/-- Mirrors `MemStorage.createSystemPrompt` (state part; persistence is
modelled by `persistPrompts`). -/
def createSystemPrompt (s : PromptState) (name content : String) (now : Int) :
    SystemPrompt × PromptState :=
  let id := s.currentPromptId
  let prompt : SystemPrompt := { id := id, name := name, content := content, createdAt := some now }
  (prompt, { systemPrompts := JsMap.set s.systemPrompts id prompt, currentPromptId := id + 1 })

/-- Mirrors `MemStorage.persistPrompts`: serializes all map values in order. -/
def persistPrompts (s : PromptState) : List SystemPrompt :=
  JsMap.values s.systemPrompts

/-- Mirrors `MemStorage.loadPrompts` on an existing, parseable file: keys the
map by prompt id, revives `createdAt`, reseeds the id counter. -/
def loadPrompts (data : List SystemPrompt) : PromptState :=
  { systemPrompts := JsMap.ofEntries (data.map (fun p => (p.id, p)))
  , currentPromptId := (data.foldl (fun m p => max m p.id) 0) + 1 }

/-- The three seeded prompts of `initializeDefaultPrompts`. -/
def defaultPromptSeeds : List (String × String) :=
  [("Помощник программиста",
    "Ты опытный программист, который помогает решать задачи и объясняет код понятным языком."),
   ("Переводчик",
    "Переводи тексты на любые языки, сохраняя смысл и стиль оригинала."),
   ("Аналитик данных",
    "Анализируй данные, строй графики и делай выводы на основе статистики.")]

/-- Mirrors the seeding loop of the defaults in the constructor path. -/
def seedDefaultPrompts (s : PromptState) (now : Int) : PromptState :=
  defaultPromptSeeds.foldl
    (fun st nc =>
      { systemPrompts := JsMap.set st.systemPrompts st.currentPromptId
          { id := st.currentPromptId, name := nc.1, content := nc.2, createdAt := some now }
      , currentPromptId := st.currentPromptId + 1 }) s

/-- The `MemStorage` constructor's prompt initialization: load the persisted
file, and seed the defaults only when the resulting map is empty. -/
def freshPromptState (file : List SystemPrompt) (now : Int) : PromptState :=
  let s := loadPrompts file
  if s.systemPrompts.isEmpty then seedDefaultPrompts s now else s

/-- Sort key of `getAllSystemPrompts`: `createdAt.getTime()` with `null` as 0. -/
def promptTime (p : SystemPrompt) : Int := p.createdAt.getD 0

/-- Mirrors `MemStorage.getAllSystemPrompts`: values sorted by creation time
ascending (stable). -/
def getAllSystemPrompts (s : PromptState) : List SystemPrompt :=
  stableSort (fun a b => decide (promptTime a ≤ promptTime b)) (JsMap.values s.systemPrompts)

/-- Well-formedness of the prompt map: unique keys, id field matches key. -/
def PromptWF (s : PromptState) : Prop :=
  (JsMap.keys s.systemPrompts).Nodup ∧
  (∀ kp ∈ s.systemPrompts, (kp : Nat × SystemPrompt).2.id = kp.1)

theorem promptWF_create (s : PromptState) (name content : String) (now : Int)
    (h : PromptWF s) : PromptWF (createSystemPrompt s name content now).2 := by
  obtain ⟨hnd, hid⟩ := h
  refine ⟨JsMap.keys_set_nodup _ _ _ hnd, ?_⟩
  intro kp hkp
  rcases JsMap.mem_set hkp with h2 | h2
  · simp [h2]
  · exact hid kp h2

/-- Folding a list of `createSystemPrompt` calls, as the claim's N calls. -/
def applyCreates (s : PromptState) (inputs : List (String × String × Int)) : PromptState :=
  inputs.foldl (fun st i => (createSystemPrompt st i.1 i.2.1 i.2.2).2) s

theorem promptWF_applyCreates (s : PromptState) (inputs : List (String × String × Int))
    (h : PromptWF s) : PromptWF (applyCreates s inputs) := by
  induction inputs generalizing s with
  | nil => exact h
  | cons i rest ih => exact ih _ (promptWF_create s i.1 i.2.1 i.2.2 h)

theorem applyCreates_ne_nil (s : PromptState) (inputs : List (String × String × Int))
    (h : inputs ≠ []) : (applyCreates s inputs).systemPrompts ≠ [] := by
  induction inputs generalizing s with
  | nil => exact absurd rfl h
  | cons i rest ih =>
    cases rest with
    | nil =>
      simp only [applyCreates, List.foldl_cons, List.foldl_nil]
      exact JsMap.set_ne_nil _ _ _
    | cons j rest' => exact ih _ (by simp)

theorem loadPrompts_roundtrip (s : PromptState) (h : PromptWF s) :
    (loadPrompts (persistPrompts s)).systemPrompts =
      (persistPrompts s).map (fun p => (p.id, p)) := by
  obtain ⟨hnd, hid⟩ := h
  unfold loadPrompts
  apply JsMap.ofEntries_eq_self
  have : JsMap.keys ((persistPrompts s).map (fun p => (p.id, p))) =
      JsMap.keys s.systemPrompts := by
    simp only [persistPrompts, JsMap.keys, List.map_map]
    have := JsMap.values_map_eq_keys s.systemPrompts (fun p => p.id) hid
    simpa [JsMap.values, JsMap.keys, List.map_map] using this
  rw [this]
  exact hnd

/-- C7: after any nonempty sequence of `createSystemPrompt` calls on a
well-formed facade, persisting the prompts and constructing a fresh facade
that reloads the persisted file yields, via `getAllSystemPrompts`, exactly the
same prompts with the same ids in the same order; the round trip of persist
followed by load is the identity on the prompt collection. -/
theorem prompts_persist_reload_roundtrip (s0 : PromptState)
    (inputs : List (String × String × Int)) (hwf : PromptWF s0) (hne : inputs ≠ [])
    (now : Int) :
    getAllSystemPrompts (freshPromptState (persistPrompts (applyCreates s0 inputs)) now)
      = getAllSystemPrompts (applyCreates s0 inputs) := by
  have hwf2 := promptWF_applyCreates s0 inputs hwf
  have hne2 := applyCreates_ne_nil s0 inputs hne
  have hload := loadPrompts_roundtrip (applyCreates s0 inputs) hwf2
  have hnonempty :
      (loadPrompts (persistPrompts (applyCreates s0 inputs))).systemPrompts ≠ [] := by
    rw [hload]
    simp only [persistPrompts, JsMap.values, ne_eq, List.map_eq_nil_iff]
    exact hne2
  unfold freshPromptState
  simp only [List.isEmpty_iff, hnonempty, if_false]
  unfold getAllSystemPrompts
  rw [hload]
  have : JsMap.values ((persistPrompts (applyCreates s0 inputs)).map (fun p => (p.id, p)))
      = persistPrompts (applyCreates s0 inputs) := by
    simp only [JsMap.values, List.map_map]
    exact List.map_id _
  rw [this]
  rfl

theorem prompts_persist_reload_roundtrip_witness :
    getAllSystemPrompts (freshPromptState
        (persistPrompts (applyCreates { systemPrompts := [], currentPromptId := 1 }
          [("a", "b", (5 : Int))])) 9)
      = getAllSystemPrompts (applyCreates { systemPrompts := [], currentPromptId := 1 }
          [("a", "b", (5 : Int))]) :=
  prompts_persist_reload_roundtrip { systemPrompts := [], currentPromptId := 1 }
    [("a", "b", (5 : Int))] (by constructor <;> simp [JsMap.keys]) (by simp) 9

namespace JsMap

theorem mem_value_eq_lookup {K V : Type} [DecidableEq K] {m : List (K × V)} {k : K} {v : V}
    (hnd : (keys m).Nodup) (hkv : (k, v) ∈ m) : lookup m k = some v := by
  induction m with
  | nil => simp at hkv
  | cons hd tl ih =>
    obtain ⟨k', v'⟩ := hd
    simp only [keys, List.map_cons, List.nodup_cons] at hnd
    rcases List.mem_cons.mp hkv with h | h
    · obtain ⟨h1, h2⟩ := Prod.mk.injEq .. ▸ h
      injection h with h1 h2
      subst h1
      subst h2
      simp [lookup]
    · have hk : k' ≠ k := by
        intro he
        subst he
        exact hnd.1 (by simpa [keys] using List.mem_map_of_mem Prod.fst h)
      simp [lookup, hk, ih hnd.2 h]

theorem set_eq_map_of_nodup {K V : Type} [DecidableEq K] (m : List (K × V)) (k : K) (v : V)
    (hnd : (keys m).Nodup) (hmem : k ∈ keys m) :
    set m k v = m.map (fun kv => if kv.1 = k then (k, v) else kv) := by
  induction m with
  | nil => simp [keys] at hmem
  | cons hd tl ih =>
    obtain ⟨k', v'⟩ := hd
    simp only [keys, List.map_cons, List.nodup_cons] at hnd
    by_cases hk : k' = k
    · subst hk
      simp only [set, if_true, List.map_cons, if_pos rfl]
      have : tl.map (fun kv => if kv.1 = k' then (k', v) else kv) = tl := by
        apply List.map_congr_left ?_ |>.trans (List.map_id tl)
        intro kv hkv
        have : kv.1 ≠ k' := by
          intro he
          exact hnd.1 (by rw [← he]; simpa [keys] using List.mem_map_of_mem Prod.fst hkv)
        simp [this]
      rw [this]
    · have hmem2 : k ∈ keys tl := by
        simpa [keys, hk, Ne.symm hk] using hmem
      simp [set, hk, ih hnd.2 hmem2]

end JsMap

/-!
Notes (`src/server/routes.ts`: `createNote`, `setNoteSummary`, `getAllNotes`,
`deriveNoteTitle`).  JS string primitives are embedded at the character-list
level: `split("\n")`, `trim()` and `slice(0, n)`.
-/

/-- JS `String.prototype.slice(0, n)`. -/
def jsSlice (s : String) (n : Nat) : String := ⟨s.data.take n⟩

/-- JS `String.prototype.trim`: drops whitespace from both ends. -/
def jsTrim (s : String) : String :=
  ⟨((s.data.dropWhile Char.isWhitespace).reverse.dropWhile Char.isWhitespace).reverse⟩

/-- Splits a character list at every newline, keeping empty segments. -/
def splitNL : List Char → List (List Char)
  | [] => [[]]
  | c :: rest =>
    match splitNL rest with
    | [] => [[]]
    | l :: ls => if c = '\n' then [] :: l :: ls else (c :: l) :: ls

/-- JS `String.prototype.split("\n")`. -/
def jsSplitNewline (s : String) : List String :=
  (splitNL s.data).map (fun cs => ⟨cs⟩)

/-- Mirrors `MemStorage.deriveNoteTitle`: first non-blank line after trimming,
capped at 32 characters, empty string when no such line exists. -/
def deriveNoteTitle (content : String) : String :=
  jsSlice
    (Option.getD (((jsSplitNewline content).map jsTrim).find? (fun line => 0 < line.length)) "")
    32

/-- Shape of `Note` as stored by `MemStorage` (timestamps are ISO strings). -/
structure Note where
  id : Nat
  title : String
  content : String
  summary : Option String
  createdAt : String
  updatedAt : String
deriving DecidableEq, Repr

/-- Shape of `InsertNote` (both fields optional). -/
structure InsertNote where
  title : Option String
  content : Option String
deriving DecidableEq, Repr

/-- The note-related slice of `MemStorage`. -/
structure NoteState where
  notes : List (Nat × Note)
  currentNoteId : Nat
deriving DecidableEq, Repr

/-- Mirrors `MemStorage.createNote` (state part). -/
def createNote (s : NoteState) (insert : InsertNote) (now : String) : Note × NoteState :=
  let id := s.currentNoteId
  let content := insert.content.getD ""
  let title := insert.title.getD (deriveNoteTitle content)
  let note : Note :=
    { id := id
    , title := if 0 < title.length then title else "Без названия"
    , content := content
    , summary := none
    , createdAt := now
    , updatedAt := now }
  (note, { notes := JsMap.set s.notes id note, currentNoteId := id + 1 })

/-- Mirrors `MemStorage.setNoteSummary`. -/
def setNoteSummary (s : NoteState) (id : Nat) (summary : String) : Option Note × NoteState :=
  match JsMap.lookup s.notes id with
  | none => (none, s)
  | some existing =>
    let updated : Note := { existing with summary := some summary }
    (some updated, { s with notes := JsMap.set s.notes id updated })

/-- Comparator of `getAllNotes`: `updatedAt.localeCompare` ascending (ISO
timestamps, so lexicographic order). -/
def noteLe (a b : Note) : Bool := decide (a.updatedAt ≤ b.updatedAt)

/-- Mirrors `MemStorage.getAllNotes`: values sorted by `updatedAt` ascending. -/
def getAllNotes (s : NoteState) : List Note :=
  stableSort noteLe (JsMap.values s.notes)

/-- C6: a note created with content but no title takes as title the first
non-blank line of the content (trimmed, capped at 32 characters), and the
fixed placeholder when the content has no non-blank line; in particular
content made of the line `Hello world` followed by `more text` yields the
title `Hello world`. -/
theorem create_note_title_derivation (content : String) (s : NoteState) (now : String) :
    ((createNote s { title := none, content := some content } now).1.title =
      match ((jsSplitNewline content).map jsTrim).find? (fun line => 0 < line.length) with
      | some l => jsSlice l 32
      | none => "Без названия") ∧
    (createNote s { title := none, content := some "Hello world\nmore text" } now).1.title
      = "Hello world" := by
  constructor
  · have hbase : (createNote s { title := none, content := some content } now).1.title
        = if 0 < (deriveNoteTitle content).length then deriveNoteTitle content
          else "Без названия" := rfl
    rw [hbase]
    unfold deriveNoteTitle
    cases hfind : ((jsSplitNewline content).map jsTrim).find? (fun line => 0 < line.length) with
    | none =>
      simp only [Option.getD_none]
      exact if_neg (by decide)
    | some l =>
      simp only [Option.getD_some]
      have hl : 0 < l.length := by
        have h2 := List.find?_some hfind
        exact of_decide_eq_true h2
      have hlen : 0 < (jsSlice l 32).length := by
        have h3 : (jsSlice l 32).length = min 32 l.data.length := by
          show (l.data.take 32).length = min 32 l.data.length
          exact List.length_take 32 l.data
        rw [h3]
        exact lt_min (by omega) hl
      exact if_pos hlen
  · rfl

/-- C10: on an existing note id, `setNoteSummary` only replaces that note's
summary: the returned note is the old record with the new summary, the map is
the old map with only that entry's summary replaced (all other fields and all
other notes untouched), and the `getAllNotes` ordering is preserved pointwise;
on an absent id it returns `none` and leaves the state unchanged. -/
theorem set_note_summary_frame (s : NoteState) (id : Nat) (summary : String)
    (hnd : (JsMap.keys s.notes).Nodup)
    (hid : ∀ kn ∈ s.notes, (kn : Nat × Note).2.id = kn.1) :
    (∀ existing, JsMap.lookup s.notes id = some existing →
      (setNoteSummary s id summary).1 = some { existing with summary := some summary } ∧
      (setNoteSummary s id summary).2.notes =
        s.notes.map (fun kn =>
          if kn.1 = id then (kn.1, { kn.2 with summary := some summary }) else kn) ∧
      getAllNotes (setNoteSummary s id summary).2 =
        (getAllNotes s).map (fun n =>
          if n.id = id then { n with summary := some summary } else n)) ∧
    (JsMap.lookup s.notes id = none → setNoteSummary s id summary = (none, s)) := by
  constructor
  · intro existing hlook
    have hmem : id ∈ JsMap.keys s.notes := by
      rw [← JsMap.lookup_isSome_iff_mem_keys, hlook]
      rfl
    have hval : ∀ kn ∈ s.notes, (kn : Nat × Note).1 = id → kn.2 = existing := by
      intro kn hkn hk1
      obtain ⟨k, v⟩ := kn
      simp only at hk1
      subst hk1
      have h1 : JsMap.lookup s.notes k = some v := JsMap.mem_value_eq_lookup hnd hkn
      rw [hlook] at h1
      injection h1 with h2
      exact h2.symm
    have hunfold : setNoteSummary s id summary =
        (some { existing with summary := some summary },
         { s with notes := JsMap.set s.notes id { existing with summary := some summary } }) := by
      unfold setNoteSummary
      rw [hlook]
    have hsetmap : JsMap.set s.notes id { existing with summary := some summary } =
        s.notes.map (fun kn =>
          if kn.1 = id then (kn.1, { kn.2 with summary := some summary }) else kn) := by
      rw [JsMap.set_eq_map_of_nodup s.notes id _ hnd hmem]
      apply List.map_congr_left
      intro kn hkn
      by_cases hk : kn.1 = id
      · rw [if_pos hk, if_pos hk, hval kn hkn hk, hk]
      · rw [if_neg hk, if_neg hk]
    have hg : ∀ a b : Note,
        noteLe ((fun n => if n.id = id then { n with summary := some summary } else n) a)
               ((fun n => if n.id = id then { n with summary := some summary } else n) b)
          = noteLe a b := by
      intro a b
      by_cases ha : a.id = id <;> by_cases hb : b.id = id <;> simp [noteLe, ha, hb]
    have hvalues : JsMap.values (JsMap.set s.notes id { existing with summary := some summary }) =
        (JsMap.values s.notes).map (fun n =>
          if n.id = id then { n with summary := some summary } else n) := by
      rw [hsetmap]
      simp only [JsMap.values, List.map_map]
      apply List.map_congr_left
      intro kn hkn
      by_cases hk : kn.1 = id
      · have hidk : kn.2.id = id := by rw [hid kn hkn]; exact hk
        simp [hk, hidk]
      · have hidk : ¬ kn.2.id = id := by rw [hid kn hkn]; exact hk
        simp [hk, hidk]
    refine ⟨by rw [hunfold], by rw [hunfold]; exact hsetmap, ?_⟩
    show getAllNotes (setNoteSummary s id summary).2 = _
    rw [hunfold]
    show stableSort noteLe
        (JsMap.values (JsMap.set s.notes id { existing with summary := some summary })) = _
    rw [hvalues]
    exact stableSort_map noteLe _ hg _
  · intro hlook
    unfold setNoteSummary
    rw [hlook]

/-- Sample notes for the frame-claim witness. -/
def noteOne : Note :=
  { id := 1, title := "t1", content := "c1", summary := none
  , createdAt := "2024-01-01T00:00:00.000Z", updatedAt := "2024-01-02T00:00:00.000Z" }

def noteTwo : Note :=
  { id := 2, title := "t2", content := "c2", summary := some "old"
  , createdAt := "2024-01-03T00:00:00.000Z", updatedAt := "2024-01-04T00:00:00.000Z" }

def twoNoteState : NoteState :=
  { notes := [(1, noteOne), (2, noteTwo)], currentNoteId := 3 }

theorem set_note_summary_frame_witness :
    (setNoteSummary twoNoteState 1 "s").1 = some { noteOne with summary := some "s" } ∧
    (setNoteSummary twoNoteState 1 "s").2.notes =
      twoNoteState.notes.map (fun kn =>
        if kn.1 = 1 then (kn.1, { kn.2 with summary := some "s" }) else kn) ∧
    getAllNotes (setNoteSummary twoNoteState 1 "s").2 =
      (getAllNotes twoNoteState).map (fun n =>
        if n.id = 1 then { n with summary := some "s" } else n) :=
  (set_note_summary_frame twoNoteState 1 "s" (by decide) (by decide)).1 noteOne (by decide)

/-!
Decimal rendering.  JS template interpolation (and `String(n)`) renders a
number in decimal; `decDigitsAux` is a fuel-based structural recursion so that
concrete date keys evaluate inside the kernel.
-/

/-- Decimal digit characters of `n`, most significant first (`fuel ≥ n + 1`). -/
def decDigitsAux : Nat → Nat → List Char
  | 0, _ => []
  | fuel + 1, n =>
    if n < 10 then [Char.ofNat (48 + n)]
    else decDigitsAux fuel (n / 10) ++ [Char.ofNat (48 + n % 10)]

/-- Decimal rendering of a natural number (the embedding of JS number-to-string
conversion for nonnegative integers). -/
def natToDec (n : Nat) : String := ⟨decDigitsAux (n + 1) n⟩

/-- Reads a digit string back as a number; left inverse of the renderer. -/
def digitsVal (l : List Char) : Nat :=
  l.foldl (fun acc c => 10 * acc + (c.toNat - 48)) 0

theorem char_digit_toNat (m : Nat) (h : m < 10) : (Char.ofNat (48 + m)).toNat = 48 + m := by
  interval_cases m <;> decide

theorem digitsVal_append_digit (l : List Char) (c : Char) :
    digitsVal (l ++ [c]) = 10 * digitsVal l + (c.toNat - 48) := by
  unfold digitsVal
  rw [List.foldl_append]
  rfl

theorem digitsVal_decDigitsAux (fuel n : Nat) (h : n < fuel) :
    digitsVal (decDigitsAux fuel n) = n := by
  induction fuel generalizing n with
  | zero => omega
  | succ fuel ih =>
    by_cases h10 : n < 10
    · simp only [decDigitsAux, h10, if_true]
      unfold digitsVal
      simp only [List.foldl_cons, List.foldl_nil]
      rw [char_digit_toNat n h10]
      omega
    · simp only [decDigitsAux, h10, if_false]
      rw [digitsVal_append_digit]
      have hdiv : n / 10 < fuel := by omega
      rw [ih (n / 10) hdiv]
      rw [char_digit_toNat (n % 10) (Nat.mod_lt _ (by omega))]
      omega

theorem digitsVal_natToDec (n : Nat) : digitsVal (natToDec n).data = n :=
  digitsVal_decDigitsAux (n + 1) n (Nat.lt_succ_self n)

theorem natToDec_injective (a b : Nat) (h : natToDec a = natToDec b) : a = b := by
  have hd : (natToDec a).data = (natToDec b).data := congrArg String.data h
  have := digitsVal_natToDec a
  rw [hd, digitsVal_natToDec b] at this
  exact this.symm

/-- JS `String(n).padStart(2, "0")`. -/
def pad2 (n : Nat) : String :=
  let s := natToDec n
  if s.length < 2 then ⟨List.replicate (2 - s.length) '0' ++ s.data⟩ else s

theorem digitsVal_replicate_zero (k : Nat) (l : List Char) :
    digitsVal (List.replicate k '0' ++ l) = digitsVal l := by
  induction k with
  | zero => simp
  | succ k ih =>
    unfold digitsVal at ih ⊢
    simp only [List.replicate_succ, List.cons_append, List.foldl_cons]
    have h0 : (10 * 0 + ('0'.toNat - 48)) = 0 := by decide
    rw [h0]
    exact ih

theorem digitsVal_pad2 (n : Nat) : digitsVal (pad2 n).data = n := by
  unfold pad2
  by_cases h : (natToDec n).length < 2
  · simp only [h, if_true]
    show digitsVal (List.replicate (2 - (natToDec n).length) '0' ++ (natToDec n).data) = n
    rw [digitsVal_replicate_zero]
    exact digitsVal_natToDec n
  · simp only [h, if_false]
    exact digitsVal_natToDec n

theorem pad2_inj_data (a b : Nat) (h : (pad2 a).data = (pad2 b).data) : a = b := by
  have := digitsVal_pad2 a
  rw [h, digitsVal_pad2 b] at this
  exact this.symm

theorem decDigitsAux_small (fuel m : Nat) (hf : 0 < fuel) (hm : m < 10) :
    decDigitsAux fuel m = [Char.ofNat (48 + m)] := by
  cases fuel with
  | zero => omega
  | succ fuel => simp [decDigitsAux, hm]

theorem natToDec_length_lt100 (n : Nat) (h : n < 100) : (natToDec n).length ≤ 2 := by
  by_cases h10 : n < 10
  · show (decDigitsAux (n + 1) n).length ≤ 2
    rw [decDigitsAux_small (n + 1) n (by omega) h10]
    simp
  · show (decDigitsAux (n + 1) n).length ≤ 2
    have : decDigitsAux (n + 1) n =
        decDigitsAux n (n / 10) ++ [Char.ofNat (48 + n % 10)] := by
      simp [decDigitsAux, h10]
    rw [this, decDigitsAux_small n (n / 10) (by omega) (by omega)]
    simp

theorem pad2_length (n : Nat) (h : n < 100) : (pad2 n).data.length = 2 := by
  have hle := natToDec_length_lt100 n h
  unfold pad2
  by_cases hlt : (natToDec n).length < 2
  · simp only [hlt, if_true]
    show (List.replicate (2 - (natToDec n).length) '0' ++ (natToDec n).data).length = 2
    rw [List.length_append, List.length_replicate]
    show 2 - (natToDec n).data.length + (natToDec n).data.length = 2
    have : (natToDec n).length = (natToDec n).data.length := rfl
    omega
  · simp only [hlt, if_false]
    have : (natToDec n).length = (natToDec n).data.length := rfl
    omega

/-!
Calendar dates and usage-ledger keys (`src/server/routes.ts`:
`MemStorage.toDateKey`, `getUsageKey`, `maskToken`, `recordApiUsage`,
`getApiUsage`, `persistUsage`, `loadUsage`).  A `Date`'s local calendar parts
are modelled as the `(year, month, day)` triple the source reads off it.
The sha-256 token hash lives in an external crypto library, so the hash
function is a parameter of the operations (no claim depends on its values).
-/

theorem string_data_append (a b : String) : (a ++ b).data = a.data ++ b.data := by
  obtain ⟨da⟩ := a
  obtain ⟨db⟩ := b
  rfl

/-- The `(getFullYear(), getMonth() + 1, getDate())` parts of a `Date`. -/
structure CalDate where
  year : Nat
  month : Nat
  day : Nat
deriving DecidableEq, Repr

/-- An actual calendar date as produced by a JS `Date`. -/
def ValidCal (d : CalDate) : Prop :=
  1 ≤ d.month ∧ d.month ≤ 12 ∧ 1 ≤ d.day ∧ d.day ≤ 31

instance (d : CalDate) : Decidable (ValidCal d) := by
  unfold ValidCal
  infer_instance

/-- Mirrors `MemStorage.toDateKey`: `YYYY-MM-DD` with zero-padded month/day. -/
def toDateKey (d : CalDate) : String :=
  natToDec d.year ++ "-" ++ pad2 d.month ++ "-" ++ pad2 d.day

theorem toDateKey_data (d : CalDate) :
    (toDateKey d).data =
      (natToDec d.year).data ++
        ("-".data ++ ((pad2 d.month).data ++ ("-".data ++ (pad2 d.day).data))) := by
  unfold toDateKey
  rw [string_data_append, string_data_append, string_data_append]
  simp [List.append_assoc]

theorem natToDec_inj_data (a b : Nat) (h : (natToDec a).data = (natToDec b).data) : a = b := by
  have := digitsVal_natToDec a
  rw [h, digitsVal_natToDec b] at this
  exact this.symm

/-- Distinct valid calendar days produce distinct date keys. -/
theorem toDateKey_inj (d1 d2 : CalDate) (h1 : ValidCal d1) (h2 : ValidCal d2)
    (heq : toDateKey d1 = toDateKey d2) : d1 = d2 := by
  obtain ⟨h1a, h1b, h1c, h1d⟩ := h1
  obtain ⟨h2a, h2b, h2c, h2d⟩ := h2
  have hd := congrArg String.data heq
  rw [toDateKey_data, toDateKey_data] at hd
  have hdash : ("-".data).length = 1 := rfl
  have hm1 : (pad2 d1.month).data.length = 2 := pad2_length _ (by omega)
  have hm2 : (pad2 d2.month).data.length = 2 := pad2_length _ (by omega)
  have hdy1 : (pad2 d1.day).data.length = 2 := pad2_length _ (by omega)
  have hdy2 : (pad2 d2.day).data.length = 2 := pad2_length _ (by omega)
  have hlen : ("-".data ++ ((pad2 d1.month).data ++ ("-".data ++ (pad2 d1.day).data))).length
      = ("-".data ++ ((pad2 d2.month).data ++ ("-".data ++ (pad2 d2.day).data))).length := by
    simp only [List.length_append, hdash, hm1, hm2, hdy1, hdy2]
  obtain ⟨hy, hrest⟩ := List.append_inj' hd hlen
  have hyear := natToDec_inj_data d1.year d2.year hy
  have hdashl : "-".data = ['-'] := rfl
  rw [hdashl] at hrest
  simp only [List.cons_append, List.nil_append] at hrest
  injection hrest with _ hrest2
  obtain ⟨hmon, hday0⟩ := List.append_inj hrest2 (hm1.trans hm2.symm)
  have hmonth := pad2_inj_data d1.month d2.month hmon
  injection hday0 with _ hday1
  have hday := pad2_inj_data d1.day d2.day hday1
  obtain ⟨y1, m1, dd1⟩ := d1
  obtain ⟨y2, m2, dd2⟩ := d2
  simp only at hyear hmonth hday
  simp [hyear, hmonth, hday]

/-- JS `String.prototype.slice(-n)`: last `n` characters. -/
def jsSliceLast (s : String) (n : Nat) : String := ⟨(s.data.reverse.take n).reverse⟩

/-- Mirrors `MemStorage.maskToken`. -/
def maskToken (token : String) : String :=
  let trimmed := jsTrim token
  if trimmed.length ≤ 8 then
    (if 0 < trimmed.length then jsSlice trimmed 2 ++ "..." else "***")
  else jsSlice trimmed 4 ++ "..." ++ jsSliceLast trimmed 4

/-- Mirrors `MemStorage.getUsageKey`: `hash:configId` or just the hash. -/
def getUsageKey (tokenHash : String) (configId : Option Nat) : String :=
  match configId with
  | some cid => tokenHash ++ ":" ++ natToDec cid
  | none => tokenHash

/-- In-memory usage record (`UsageRecord` in the source; optional fields are
absent-able, and `totalTokens` is an integer — `Number.isFinite` always holds
in this model). -/
structure UsageRecord where
  tokenMask : String
  name : Option String
  model : Option String
  useGoogle : Option Bool
  configId : Option Nat
  requests : Nat
  totalTokens : Int
deriving DecidableEq, Repr

/-- One element of the persisted `api-usage.json` array. -/
structure UsageFileEntry where
  date : String
  tokenHash : String
  tokenMask : String
  name : Option String
  model : Option String
  useGoogle : Option Bool
  configId : Option Nat
  requests : Nat
  totalTokens : Int
deriving DecidableEq, Repr

/-- The usage slice of `MemStorage` plus the persisted file contents. -/
structure UsageState where
  usageByDate : List (String × List (String × UsageRecord))
  disk : List UsageFileEntry
deriving DecidableEq, Repr

/-- JS `usageKey.split(":")[0]`. -/
def splitColonHead (s : String) : String := ⟨s.data.takeWhile (fun c => ¬ c = ':')⟩

/-- Mirrors `MemStorage.persistUsage`: flattens the two-level map in iteration
order into the persisted array. -/
def persistUsage (usageByDate : List (String × List (String × UsageRecord))) :
    List UsageFileEntry :=
  (usageByDate.map (fun dateTokens =>
    dateTokens.2.map (fun kr =>
      { date := dateTokens.1
      , tokenHash := splitColonHead kr.1
      , tokenMask := kr.2.tokenMask
      , name := kr.2.name
      , model := kr.2.model
      , useGoogle := kr.2.useGoogle
      , configId := kr.2.configId
      , requests := kr.2.requests
      , totalTokens := kr.2.totalTokens }))).flatten

/-- Arguments of `recordApiUsage` (`recordedAt ?? new Date()` resolved to its
calendar parts). -/
structure UsageParams where
  token : String
  name : Option String
  model : Option String
  useGoogle : Option Bool
  configId : Option Nat
  totalTokens : Int
  recordedAt : CalDate
deriving DecidableEq, Repr

/-- The record freshly created when no entry exists under the usage key. -/
def usageDefault (tokenMask : String) (p : UsageParams) : UsageRecord :=
  { tokenMask := tokenMask, name := p.name, model := p.model
  , useGoogle := p.useGoogle, configId := p.configId
  , requests := 0, totalTokens := 0 }

/-- The source's in-place mutation sequence on the existing (or fresh) record:
mask overwritten, truthy name/model adopted, typed useGoogle/configId adopted,
counters incremented. -/
def usageUpdate (prev : UsageRecord) (tokenMask : String) (p : UsageParams) : UsageRecord :=
  { tokenMask := tokenMask
  , name := match p.name with
            | some n => if n = "" then prev.name else some n
            | none => prev.name
  , model := match p.model with
             | some m => if m = "" then prev.model else some m
             | none => prev.model
  , useGoogle := match p.useGoogle with
                 | some b => some b
                 | none => prev.useGoogle
  , configId := match p.configId with
                | some c0 => some c0
                | none => prev.configId
  , requests := prev.requests + 1
  , totalTokens := prev.totalTokens + p.totalTokens }

/-- Mirrors `MemStorage.recordApiUsage`: no-op on a blank token, otherwise
accumulate under `(dateKey, usageKey)` and rewrite the usage file. -/
def recordApiUsage (hash : String → String) (s : UsageState) (p : UsageParams) : UsageState :=
  let token := jsTrim p.token
  if token = "" then s
  else
    let dateKey := toDateKey p.recordedAt
    let tokenHash := hash token
    let tokenMask := maskToken token
    let byToken := (JsMap.lookup s.usageByDate dateKey).getD []
    let usageKey := getUsageKey tokenHash p.configId
    let updated := usageUpdate ((JsMap.lookup byToken usageKey).getD (usageDefault tokenMask p))
      tokenMask p
    let byToken' := JsMap.set byToken usageKey updated
    let usageByDate' := JsMap.set s.usageByDate dateKey byToken'
    { usageByDate := usageByDate', disk := persistUsage usageByDate' }

/-- One row of the `/api/usage` response (`ApiUsageEntry`). -/
structure ApiUsageEntry where
  date : String
  tokenLabel : String
  requests : Nat
  totalTokens : Int
  model : Option String
  useGoogle : Option Bool
  configId : Option Nat
deriving DecidableEq, Repr

/-- Mirrors `MemStorage.getApiUsage`: dates sorted descending (the
`localeCompare` on `YYYY-MM-DD` keys is lexicographic), each date's records
flattened with a display label. -/
def getApiUsage (s : UsageState) : List ApiUsageEntry :=
  let dates := stableSort (fun a b => decide (b ≤ a)) (JsMap.keys s.usageByDate)
  (dates.map (fun date =>
    match JsMap.lookup s.usageByDate date with
    | none => []
    | some tokens =>
      tokens.map (fun kr =>
        { date := date
        , tokenLabel := match kr.2.name with
                        | some n => if n = "" then kr.2.tokenMask
                                    else n ++ " (" ++ kr.2.tokenMask ++ ")"
                        | none => kr.2.tokenMask
        , requests := kr.2.requests
        , totalTokens := kr.2.totalTokens
        , model := kr.2.model
        , useGoogle := kr.2.useGoogle
        , configId := kr.2.configId }))).flatten

/-- Observer: the record stored under a date key and usage key. -/
def lookupUsage (s : UsageState) (dateKey usageKey : String) : Option UsageRecord :=
  JsMap.lookup ((JsMap.lookup s.usageByDate dateKey).getD []) usageKey

theorem recordApiUsage_eq (hash : String → String) (s : UsageState) (p : UsageParams)
    (h : ¬ jsTrim p.token = "") :
    recordApiUsage hash s p =
      { usageByDate := JsMap.set s.usageByDate (toDateKey p.recordedAt)
          (JsMap.set ((JsMap.lookup s.usageByDate (toDateKey p.recordedAt)).getD [])
            (getUsageKey (hash (jsTrim p.token)) p.configId)
            (usageUpdate
              ((JsMap.lookup ((JsMap.lookup s.usageByDate (toDateKey p.recordedAt)).getD [])
                  (getUsageKey (hash (jsTrim p.token)) p.configId)).getD
                (usageDefault (maskToken (jsTrim p.token)) p))
              (maskToken (jsTrim p.token)) p))
      , disk := persistUsage (JsMap.set s.usageByDate (toDateKey p.recordedAt)
          (JsMap.set ((JsMap.lookup s.usageByDate (toDateKey p.recordedAt)).getD [])
            (getUsageKey (hash (jsTrim p.token)) p.configId)
            (usageUpdate
              ((JsMap.lookup ((JsMap.lookup s.usageByDate (toDateKey p.recordedAt)).getD [])
                  (getUsageKey (hash (jsTrim p.token)) p.configId)).getD
                (usageDefault (maskToken (jsTrim p.token)) p))
              (maskToken (jsTrim p.token)) p))) } := by
  unfold recordApiUsage
  rw [if_neg h]

namespace JsMap

theorem countP_key_eq_zero {K V : Type} [DecidableEq K] (m : List (K × V)) (k : K)
    (h : k ∉ keys m) : m.countP (fun e => decide (e.1 = k)) = 0 := by
  rw [List.countP_eq_zero]
  intro e he
  simp only [decide_eq_true_eq]
  intro hek
  exact h (hek ▸ List.mem_map_of_mem Prod.fst he)

theorem countP_key_set_mem {K V : Type} [DecidableEq K] (m : List (K × V)) (k : K) (v : V)
    (h : k ∈ keys m) :
    (set m k v).countP (fun e => decide (e.1 = k)) = m.countP (fun e => decide (e.1 = k)) := by
  induction m with
  | nil => simp [keys] at h
  | cons hd tl ih =>
    obtain ⟨k', v'⟩ := hd
    by_cases hk : k' = k
    · subst hk
      simp [set, List.countP_cons]
    · have h2 : k ∈ keys tl := by simpa [keys, hk, Ne.symm hk] using h
      simp [set, hk, List.countP_cons, ih h2]

end JsMap

theorem lookupUsage_record_same (hash : String → String) (s : UsageState) (p : UsageParams)
    (htrim : ¬ jsTrim p.token = "") :
    lookupUsage (recordApiUsage hash s p) (toDateKey p.recordedAt)
        (getUsageKey (hash (jsTrim p.token)) p.configId) =
      some (usageUpdate
        ((lookupUsage s (toDateKey p.recordedAt)
            (getUsageKey (hash (jsTrim p.token)) p.configId)).getD
          (usageDefault (maskToken (jsTrim p.token)) p))
        (maskToken (jsTrim p.token)) p) := by
  unfold lookupUsage
  rw [recordApiUsage_eq hash s p htrim]
  simp only
  rw [JsMap.lookup_set_self]
  simp only [Option.getD_some]
  rw [JsMap.lookup_set_self]

theorem lookupUsage_record_other_date (hash : String → String) (s : UsageState)
    (p : UsageParams) (dk key : String) (htrim : ¬ jsTrim p.token = "")
    (hne : dk ≠ toDateKey p.recordedAt) :
    lookupUsage (recordApiUsage hash s p) dk key = lookupUsage s dk key := by
  unfold lookupUsage
  rw [recordApiUsage_eq hash s p htrim]
  simp only
  rw [JsMap.lookup_set_ne _ _ _ _ (Ne.symm hne)]

theorem byToken_record_same (hash : String → String) (s : UsageState) (p : UsageParams)
    (htrim : ¬ jsTrim p.token = "") :
    (JsMap.lookup (recordApiUsage hash s p).usageByDate (toDateKey p.recordedAt)).getD [] =
      JsMap.set ((JsMap.lookup s.usageByDate (toDateKey p.recordedAt)).getD [])
        (getUsageKey (hash (jsTrim p.token)) p.configId)
        (usageUpdate
          ((JsMap.lookup ((JsMap.lookup s.usageByDate (toDateKey p.recordedAt)).getD [])
              (getUsageKey (hash (jsTrim p.token)) p.configId)).getD
            (usageDefault (maskToken (jsTrim p.token)) p))
          (maskToken (jsTrim p.token)) p) := by
  rw [recordApiUsage_eq hash s p htrim]
  simp only
  rw [JsMap.lookup_set_self]
  rfl

/-- C4: two `recordApiUsage` calls with the same token, the same configId and
recorded dates on the same calendar day leave exactly one record under the key
(day, hash, configId), with `requests = 2` and `totalTokens` the sum of the two
reported totals; a third call on a different valid calendar day creates a
second, independent record (with `requests = 1` and its own total) and leaves
the first record untouched. -/
theorem usage_accumulates_per_day (hash : String → String) (s : UsageState)
    (p1 p2 p3 : UsageParams)
    (ht12 : p2.token = p1.token) (ht13 : p3.token = p1.token)
    (hc12 : p2.configId = p1.configId) (hc13 : p3.configId = p1.configId)
    (hd12 : p2.recordedAt = p1.recordedAt) (hneq : p3.recordedAt ≠ p1.recordedAt)
    (hv1 : ValidCal p1.recordedAt) (hv3 : ValidCal p3.recordedAt)
    (htrim : ¬ jsTrim p1.token = "")
    (hfresh : lookupUsage s (toDateKey p1.recordedAt)
      (getUsageKey (hash (jsTrim p1.token)) p1.configId) = none)
    (hfresh3 : lookupUsage s (toDateKey p3.recordedAt)
      (getUsageKey (hash (jsTrim p1.token)) p1.configId) = none) :
    (∃ r, lookupUsage (recordApiUsage hash (recordApiUsage hash s p1) p2)
        (toDateKey p1.recordedAt) (getUsageKey (hash (jsTrim p1.token)) p1.configId)
          = some r ∧
      r.requests = 2 ∧ r.totalTokens = p1.totalTokens + p2.totalTokens) ∧
    ((JsMap.lookup (recordApiUsage hash (recordApiUsage hash s p1) p2).usageByDate
        (toDateKey p1.recordedAt)).getD []).countP
      (fun e => decide (e.1 = getUsageKey (hash (jsTrim p1.token)) p1.configId)) = 1 ∧
    (∃ r3, lookupUsage
        (recordApiUsage hash (recordApiUsage hash (recordApiUsage hash s p1) p2) p3)
        (toDateKey p3.recordedAt) (getUsageKey (hash (jsTrim p1.token)) p1.configId)
          = some r3 ∧
      r3.requests = 1 ∧ r3.totalTokens = p3.totalTokens) ∧
    lookupUsage (recordApiUsage hash (recordApiUsage hash (recordApiUsage hash s p1) p2) p3)
        (toDateKey p1.recordedAt) (getUsageKey (hash (jsTrim p1.token)) p1.configId) =
      lookupUsage (recordApiUsage hash (recordApiUsage hash s p1) p2)
        (toDateKey p1.recordedAt) (getUsageKey (hash (jsTrim p1.token)) p1.configId) := by
  have htrim2 : ¬ jsTrim p2.token = "" := by rw [ht12]; exact htrim
  have htrim3 : ¬ jsTrim p3.token = "" := by rw [ht13]; exact htrim
  have hne31 : toDateKey p3.recordedAt ≠ toDateKey p1.recordedAt := by
    intro h
    exact hneq (toDateKey_inj _ _ hv3 hv1 h)
  have h1 := lookupUsage_record_same hash s p1 htrim
  rw [hfresh] at h1
  simp only [Option.getD_none] at h1
  have h2 := lookupUsage_record_same hash (recordApiUsage hash s p1) p2 htrim2
  rw [ht12, hc12, hd12] at h2
  rw [h1] at h2
  simp only [Option.getD_some] at h2
  have hfreshU : JsMap.lookup
      ((JsMap.lookup s.usageByDate (toDateKey p1.recordedAt)).getD [])
      (getUsageKey (hash (jsTrim p1.token)) p1.configId) = none := hfresh
  have e1 := byToken_record_same hash s p1 htrim
  rw [hfreshU] at e1
  simp only [Option.getD_none] at e1
  have e2 := byToken_record_same hash (recordApiUsage hash s p1) p2 htrim2
  rw [ht12, hc12, hd12] at e2
  rw [e1] at e2
  have hkey0 : (getUsageKey (hash (jsTrim p1.token)) p1.configId) ∉
      JsMap.keys ((JsMap.lookup s.usageByDate (toDateKey p1.recordedAt)).getD []) :=
    (JsMap.lookup_eq_none_iff_not_mem_keys _ _).mp hfreshU
  have h3 := lookupUsage_record_same hash
    (recordApiUsage hash (recordApiUsage hash s p1) p2) p3 htrim3
  rw [ht13, hc13] at h3
  have hstep2 : lookupUsage (recordApiUsage hash (recordApiUsage hash s p1) p2)
      (toDateKey p3.recordedAt) (getUsageKey (hash (jsTrim p1.token)) p1.configId)
      = lookupUsage s (toDateKey p3.recordedAt)
          (getUsageKey (hash (jsTrim p1.token)) p1.configId) := by
    rw [lookupUsage_record_other_date hash (recordApiUsage hash s p1) p2 _ _ htrim2
      (by rw [hd12]; exact hne31)]
    rw [lookupUsage_record_other_date hash s p1 _ _ htrim hne31]
  rw [hstep2, hfresh3] at h3
  simp only [Option.getD_none] at h3
  refine ⟨⟨_, h2, ?_, ?_⟩, ?_, ⟨_, h3, ?_, ?_⟩, ?_⟩
  · simp [usageUpdate, usageDefault]
  · simp [usageUpdate, usageDefault]
  · rw [e2]
    rw [JsMap.countP_key_set_mem _ _ _ (JsMap.mem_keys_set_self _ _ _)]
    rw [JsMap.set_of_not_mem _ _ _ hkey0]
    rw [List.countP_append]
    rw [JsMap.countP_key_eq_zero _ _ hkey0]
    simp [List.countP_cons]
  · simp [usageUpdate, usageDefault]
  · simp [usageUpdate, usageDefault]
  · exact lookupUsage_record_other_date hash
      (recordApiUsage hash (recordApiUsage hash s p1) p2) p3
      (toDateKey p1.recordedAt) (getUsageKey (hash (jsTrim p1.token)) p1.configId)
      htrim3 (Ne.symm hne31)

/-- Concrete usage-recording inputs for the accumulation witness. -/
def usageP1 : UsageParams :=
  { token := "tok", name := none, model := none, useGoogle := none
  , configId := some 7, totalTokens := 3, recordedAt := { year := 2024, month := 5, day := 1 } }

def usageP2 : UsageParams := { usageP1 with totalTokens := 4 }

def usageP3 : UsageParams :=
  { usageP1 with totalTokens := 5, recordedAt := { year := 2024, month := 5, day := 2 } }

def emptyUsageState : UsageState := { usageByDate := [], disk := [] }

theorem usage_accumulates_per_day_witness :
    (∃ r, lookupUsage
        (recordApiUsage (fun t => t) (recordApiUsage (fun t => t) emptyUsageState usageP1) usageP2)
        (toDateKey usageP1.recordedAt)
        (getUsageKey ((fun t => t) (jsTrim usageP1.token)) usageP1.configId) = some r ∧
      r.requests = 2 ∧ r.totalTokens = usageP1.totalTokens + usageP2.totalTokens) ∧
    ((JsMap.lookup (recordApiUsage (fun t => t)
        (recordApiUsage (fun t => t) emptyUsageState usageP1) usageP2).usageByDate
        (toDateKey usageP1.recordedAt)).getD []).countP
      (fun e => decide (e.1 = getUsageKey ((fun t => t) (jsTrim usageP1.token)) usageP1.configId))
        = 1 ∧
    (∃ r3, lookupUsage
        (recordApiUsage (fun t => t) (recordApiUsage (fun t => t)
          (recordApiUsage (fun t => t) emptyUsageState usageP1) usageP2) usageP3)
        (toDateKey usageP3.recordedAt)
        (getUsageKey ((fun t => t) (jsTrim usageP1.token)) usageP1.configId) = some r3 ∧
      r3.requests = 1 ∧ r3.totalTokens = usageP3.totalTokens) ∧
    lookupUsage
        (recordApiUsage (fun t => t) (recordApiUsage (fun t => t)
          (recordApiUsage (fun t => t) emptyUsageState usageP1) usageP2) usageP3)
        (toDateKey usageP1.recordedAt)
        (getUsageKey ((fun t => t) (jsTrim usageP1.token)) usageP1.configId) =
      lookupUsage
        (recordApiUsage (fun t => t) (recordApiUsage (fun t => t) emptyUsageState usageP1) usageP2)
        (toDateKey usageP1.recordedAt)
        (getUsageKey ((fun t => t) (jsTrim usageP1.token)) usageP1.configId) :=
  usage_accumulates_per_day (fun t => t) emptyUsageState usageP1 usageP2 usageP3
    rfl rfl rfl rfl rfl (by decide) (by decide) (by decide) (by decide) rfl rfl

/-- C9: a `recordApiUsage` call whose token trims to the empty string is a
complete no-op: the in-memory ledger and the persisted usage file are both
unchanged, so `getApiUsage` afterwards returns exactly what it returned
before. -/
theorem record_usage_blank_token_noop (hash : String → String) (s : UsageState)
    (p : UsageParams) (h : jsTrim p.token = "") :
    recordApiUsage hash s p = s ∧
    getApiUsage (recordApiUsage hash s p) = getApiUsage s := by
  have hnoop : recordApiUsage hash s p = s := by
    unfold recordApiUsage
    rw [if_pos h]
  exact ⟨hnoop, by rw [hnoop]⟩

theorem record_usage_blank_token_noop_witness :
    recordApiUsage (fun t => t) emptyUsageState { usageP1 with token := "  " }
      = emptyUsageState ∧
    getApiUsage (recordApiUsage (fun t => t) emptyUsageState { usageP1 with token := "  " })
      = getApiUsage emptyUsageState :=
  record_usage_blank_token_noop (fun t => t) emptyUsageState
    { usageP1 with token := "  " } (by decide)

/-!
Google chat message shaping (`src/server/routes.ts`, the Google branch of
`POST /api/chat`; `src/server/googleApiClient.ts` `runGoogleChat` builds the
same shape).  The system prompt is the request's optional `systemPrompt`
field; JS truthiness makes an absent or empty prompt contribute nothing.
-/

/-- One text part of a Google content turn. -/
structure GooglePart where
  text : String
deriving DecidableEq, Repr

/-- One turn of the `contents` array sent to the Google model. -/
structure GoogleContent where
  role : String
  parts : List GooglePart
deriving DecidableEq, Repr

/-- A uniform chat message as received by `POST /api/chat`. -/
structure ChatMsg where
  role : String
  content : String
deriving DecidableEq, Repr

/-- Mirrors the construction of `googleMessages` in the Google branch of
`POST /api/chat`: an instruction turn prepended whenever the system prompt is
truthy, then every message converted with `assistant -> model`, everything
else `-> user`. -/
def buildGoogleMessages (systemPrompt : Option String) (messages : List ChatMsg) :
    List GoogleContent :=
  (match systemPrompt with
   | some sp =>
     if sp = "" then []
     else [{ role := "user", parts := [{ text := "Инструкция: " ++ sp }] }]
   | none => []) ++
  messages.map (fun m =>
    { role := if m.role = "assistant" then "model" else "user"
    , parts := [{ text := m.content }] })

/-- Folds an instruction into the first user turn by prefixing its text, or
injects a synthetic leading user turn when no user turn exists. -/
def specFoldInstr (instr : String) : List GoogleContent → List GoogleContent
  | [] => [{ role := "user", parts := [{ text := instr }] }]
  | m :: rest =>
    if m.role = "user" then
      { role := m.role
      , parts := m.parts.map (fun pt => { text := instr ++ "\n" ++ pt.text }) } :: rest
    else m :: specFoldInstr instr rest

/-- Modelled from the spec: the claimed shape of the Google content array, in
which a non-empty system instruction is folded into the first user turn by
prefixing its text (producing no extra turn), and a synthetic leading user
turn is injected only when the message list contains no user turn. -/
def googleMessagesSpec (systemPrompt : Option String) (messages : List ChatMsg) :
    List GoogleContent :=
  let converted := messages.map (fun m =>
    { role := if m.role = "assistant" then "model" else "user"
    , parts := [{ text := m.content }] })
  match systemPrompt with
  | none => converted
  | some sp =>
    if sp = "" then converted
    else specFoldInstr ("Инструкция: " ++ sp) converted

/-- C5 counterexample: with a non-empty instruction and a message list whose
first (and only) message is a user turn, the code emits a separate synthetic
instruction turn ahead of the untouched user turn — two turns, not the single
folded turn the claim describes. -/
theorem google_fold_counterexample :
    buildGoogleMessages (some "S") [{ role := "user", content := "hi" }]
      = [{ role := "user", parts := [{ text := "Инструкция: S" }] },
         { role := "user", parts := [{ text := "hi" }] }] ∧
    (buildGoogleMessages (some "S") [{ role := "user", content := "hi" }]).length = 2 ∧
    (googleMessagesSpec (some "S") [{ role := "user", content := "hi" }]).length = 1 ∧
    buildGoogleMessages (some "S") [{ role := "user", content := "hi" }]
      ≠ googleMessagesSpec (some "S") [{ role := "user", content := "hi" }] := by
  refine ⟨rfl, rfl, rfl, ?_⟩
  decide

/-- C5 (amended): for every non-empty system instruction, the Google branch
always injects a synthetic leading user turn carrying the prefixed
instruction, regardless of whether the message list starts with (or contains)
a user turn; the message turns themselves are converted role-wise and left
textually untouched, so the instruction is never folded into the first user
turn. -/
theorem google_instruction_always_prepended (sp : String) (messages : List ChatMsg)
    (h : ¬ sp = "") :
    buildGoogleMessages (some sp) messages =
      { role := "user", parts := [{ text := "Инструкция: " ++ sp }] } ::
        messages.map (fun m =>
          { role := if m.role = "assistant" then "model" else "user"
          , parts := [{ text := m.content }] }) := by
  show (if sp = ""
      then ([] : List GoogleContent)
      else [{ role := "user", parts := [{ text := "Инструкция: " ++ sp }] }]) ++
      messages.map (fun m =>
        { role := if m.role = "assistant" then "model" else "user"
        , parts := [{ text := m.content }] }) = _
  rw [if_neg h]
  rfl

theorem google_instruction_always_prepended_witness :
    buildGoogleMessages (some "S") [{ role := "user", content := "hi" }]
      = { role := "user", parts := [{ text := "Инструкция: S" }] } ::
          ([{ role := "user", content := "hi" }] : List ChatMsg).map (fun m =>
            { role := if m.role = "assistant" then "model" else "user"
            , parts := [{ text := m.content }] }) :=
  google_instruction_always_prepended "S" [{ role := "user", content := "hi" }] (by decide)

/-!
Session store (`src/server/storage.ts`, `JsonFileSessionStore`).  A cookie's
`expires` is a `Date` object (always truthy when present) whose epoch-millis
value is kept; `maxAge` is milliseconds.  `isExpired` tests
`!record.expiresAt`, which is true both for a missing expiry and for the
number 0, before comparing against the current time.
-/

/-- The two expiry-related cookie fields `getExpiresAt` reads. -/
structure SessionCookie where
  expires : Option Int
  maxAge : Option Int
deriving DecidableEq, Repr

/-- A session payload: its cookie plus the rest of the serialized session. -/
structure SessionData where
  cookie : Option SessionCookie
  payload : String
deriving DecidableEq, Repr

/-- One stored record (`StoredSession` in the source). -/
structure StoredSession where
  data : SessionData
  expiresAt : Option Int
deriving DecidableEq, Repr

/-- Mirrors `getExpiresAt`: explicit expiry wins, else `now + maxAge`, else no
expiry (epoch values are finite in the model). -/
def getExpiresAt (now : Int) (sd : SessionData) : Option Int :=
  match sd.cookie with
  | none => none
  | some cookie =>
    match cookie.expires with
    | some e => some e
    | none =>
      match cookie.maxAge with
      | some ma => some (now + ma)
      | none => none

/-- Mirrors `isExpired`: `!record.expiresAt` treats both an absent expiry and
the number 0 as "never expires". -/
def isExpired (now : Int) (r : StoredSession) : Bool :=
  match r.expiresAt with
  | none => false
  | some e => if e = 0 then false else decide (e ≤ now)

/-- Mirrors `JsonFileSessionStore.set`. -/
def sessionSet (m : List (String × StoredSession)) (sid : String) (sd : SessionData)
    (now : Int) : List (String × StoredSession) :=
  JsMap.set m sid { data := sd, expiresAt := getExpiresAt now sd }

/-- Mirrors `JsonFileSessionStore.get`: evicts and returns absent when the
record is expired, otherwise returns the payload. -/
def sessionGet (m : List (String × StoredSession)) (sid : String) (now : Int) :
    Option SessionData × List (String × StoredSession) :=
  match JsMap.lookup m sid with
  | none => (none, m)
  | some r =>
    if isExpired now r then (none, JsMap.erase m sid)
    else (some r.data, m)

/-- Mirrors `JsonFileSessionStore.destroy`. -/
def sessionDestroy (m : List (String × StoredSession)) (sid : String) :
    List (String × StoredSession) :=
  JsMap.erase m sid

/-- A session whose cookie carries the classic epoch-0 explicit expiry. -/
def epochZeroSession : SessionData :=
  { cookie := some { expires := some 0, maxAge := none }, payload := "p" }

/-- C8 counterexample: a session stored at time 1000 with an explicit expiry
of epoch 0 — a time in the past — is still returned (and kept) by a `get` at
the strictly later time 2000, because `isExpired` treats the expiry value 0 as
"no expiry". -/
theorem session_epoch_zero_expiry_counterexample :
    sessionGet (sessionSet [] "sid" epochZeroSession 1000) "sid" 2000
      = (some epochZeroSession, sessionSet [] "sid" epochZeroSession 1000) ∧
    getExpiresAt 1000 epochZeroSession = some 0 ∧ (0 : Int) < 1000 ∧ (1000 : Int) < 2000 := by
  refine ⟨?_, rfl, by decide, by decide⟩
  rfl

/-- C8 (amended): a session stored with a computed expiry that is a nonzero
timestamp not after the read time — in particular a max-age of 0 set at a
positive clock time, or an explicit past expiry other than epoch 0 — is absent
on the next `get` and its record is removed from the store, without `destroy`
having been called; an expiry of exactly 0 is instead treated as "no expiry"
and the session survives. -/
theorem session_nonzero_past_expiry_absent (m : List (String × StoredSession))
    (sid : String) (sd : SessionData) (t tq e : Int)
    (hnd : (JsMap.keys m).Nodup)
    (hexp : getExpiresAt t sd = some e) (hne : e ≠ 0) (hle : e ≤ tq) :
    sessionGet (sessionSet m sid sd t) sid tq
      = (none, JsMap.erase (sessionSet m sid sd t) sid) ∧
    JsMap.lookup (JsMap.erase (sessionSet m sid sd t) sid) sid = none := by
  have hlook : JsMap.lookup (sessionSet m sid sd t) sid
      = some { data := sd, expiresAt := getExpiresAt t sd } :=
    JsMap.lookup_set_self m sid { data := sd, expiresAt := getExpiresAt t sd }
  have hexpired : isExpired tq { data := sd, expiresAt := getExpiresAt t sd } = true := by
    unfold isExpired
    rw [hexp]
    simp [hne, hle]
  constructor
  · unfold sessionGet
    rw [hlook]
    simp only [hexpired, if_true]
  · apply JsMap.lookup_erase_self
    exact JsMap.keys_set_nodup m sid _ hnd

/-- A session whose cookie sets a max-age of 0 and no explicit expiry. -/
def maxAgeZeroSession : SessionData :=
  { cookie := some { expires := none, maxAge := some 0 }, payload := "q" }

theorem session_nonzero_past_expiry_absent_witness :
    (sessionGet (sessionSet [] "sid" maxAgeZeroSession 1000) "sid" 1001
      = (none, JsMap.erase (sessionSet [] "sid" maxAgeZeroSession 1000) "sid") ∧
    JsMap.lookup (JsMap.erase (sessionSet [] "sid" maxAgeZeroSession 1000) "sid") "sid"
      = none) :=
  session_nonzero_past_expiry_absent [] "sid" maxAgeZeroSession 1000 1001 1000
    (by decide) rfl (by decide) (by decide)
